import Mathlib

/-!
Verification of the caption/lyric synchronization core of the forBelle
web application (`web/src/App.tsx`): the timecode codec, the VTT and SRT
caption parsers, the lyric splitter, the cue/lyric aligner, the live cue
selector, the manual tap-timer state machine, and the LRC exporter.

Strings are modelled as `List Char` (`String.data`); the JavaScript
number arithmetic of the source stays within exact integers on every
code path modelled here, so `Nat`/`Int` are used directly.
-/

namespace ForBelle

/-- A caption cue as produced by the parsers: start and end of the active
window in milliseconds, the source caption text, and the optional aligned
lyric text (field `twText` in the source). -/
structure Cue where
  startMs : Int
  endMs : Int
  text : String
  twText : Option String := none
deriving Repr, DecidableEq

/-- JavaScript `String.prototype.trim` on a character list: drop leading
and trailing whitespace. -/
def trimL (s : List Char) : List Char :=
  ((s.dropWhile Char.isWhitespace).reverse.dropWhile Char.isWhitespace).reverse

/-- Longest leading run of decimal digits of a character list, paired with
the remaining characters. -/
def splitDigits : List Char → List Char × List Char
  | [] => ([], [])
  | c :: rest =>
    if c.isDigit then
      let (d, r) := splitDigits rest
      (c :: d, r)
    else ([], c :: rest)

/-- Value of an all-digit character list, as JavaScript `Number` computes
it on such a string. -/
def digitsToNat (ds : List Char) : Nat :=
  ds.foldl (fun a c => a * 10 + (c.toNat - 48)) 0

/-- `padEnd(3, "0")` of the source: right-pad with zeros to length 3. -/
def padEnd3 (s : List Char) : List Char :=
  s ++ List.replicate (3 - s.length) '0'

/-- Matcher for the anchored regex `^(\d{1,2}):(\d{2}):(\d{2})[.,](\d{1,3})$`
used by `timeToMs`, returning the four capture groups.  Because every
quantified group is followed by a character that cannot extend it (a
non-digit or the end of input), the regex match succeeds exactly when each
maximal digit run has the required length, which is what is checked here. -/
def matchTimecode (cs : List Char) :
    Option (List Char × List Char × List Char × List Char) :=
  let (hh, r1) := splitDigits cs
  if hh.length = 0 ∨ 2 < hh.length then none else
  match r1 with
  | ':' :: r2 =>
    let (mm, r3) := splitDigits r2
    if mm.length ≠ 2 then none else
    match r3 with
    | ':' :: r4 =>
      let (ss, r5) := splitDigits r4
      if ss.length ≠ 2 then none else
      match r5 with
      | sep :: r6 =>
        if sep = '.' ∨ sep = ',' then
          let (fr, r7) := splitDigits r6
          if 1 ≤ fr.length ∧ fr.length ≤ 3 ∧ r7 = [] then
            some (hh, mm, ss, fr)
          else none
        else none
      | [] => none
    | _ => none
  | _ => none

/-- `timeToMs` of the source: trim, match the timecode regex, right-pad the
fractional digits to milliseconds, and combine the fields. -/
def timeToMs (raw : List Char) : Option Nat :=
  match matchTimecode (trimL raw) with
  | none => none
  | some (hh, mm, ss, msRaw) =>
    let ms := digitsToNat (padEnd3 msRaw)
    some (digitsToNat hh * 3600000 + digitsToNat mm * 60000 +
      digitsToNat ss * 1000 + ms)

/-- `timeToMs` applied to a Lean string literal. -/
def timeToMsS (raw : String) : Option Nat := timeToMs raw.data

/-- Decimal digits of a natural number, most significant first, as
JavaScript `String(n)` renders it; the fuel argument bounds the number of
divisions and is always passed as `n + 1`, which suffices since `n` has at
most `n + 1` digits. -/
def natToDigitsAux : Nat → Nat → List Char → List Char
  | 0, _, acc => acc
  | fuel + 1, n, acc =>
    let d := Char.ofNat (48 + n % 10)
    if n < 10 then d :: acc
    else natToDigitsAux fuel (n / 10) (d :: acc)

/-- JavaScript `String(n)` for a natural number. -/
def natToString (n : Nat) : List Char := natToDigitsAux (n + 1) n []

/-- JavaScript `String(i)` for an integer. -/
def intToString (i : Int) : List Char :=
  if i < 0 then '-' :: natToString (-i).toNat else natToString i.toNat

/-- `padStart(w, "0")`: left-pad with zeros to length `w`. -/
def padStartZeros (w : Nat) (s : List Char) : List Char :=
  List.replicate (w - s.length) '0' ++ s

/-- `formatMs` of the source: clamp negatives to zero and render
`HH:MM:SS.mmm` with zero-padded fields. -/
def formatMs (ms : Int) : List Char :=
  let clamped := ms.toNat
  let totalSeconds := clamped / 1000
  let milli := clamped % 1000
  let s := totalSeconds % 60
  let m := totalSeconds / 60 % 60
  let h := totalSeconds / 3600
  padStartZeros 2 (natToString h) ++ ':' :: padStartZeros 2 (natToString m) ++
    ':' :: padStartZeros 2 (natToString s) ++ '.' :: padStartZeros 3 (natToString milli)


/-- `s.startsWith(p)` on character lists; the second argument is the
pattern. -/
def startsWithL : List Char → List Char → Bool
  | _, [] => true
  | [], _ :: _ => false
  | c :: cs, p :: ps => c = p && startsWithL cs ps

/-- Splits a character list at the first occurrence of the separator
`-->`, returning the text before it and the text after it; `none` when the
separator does not occur (`includes` is false). -/
def breakArrow : List Char → Option (List Char × List Char)
  | [] => none
  | '-' :: '-' :: '>' :: rest => some ([], rest)
  | c :: rest =>
    match breakArrow rest with
    | none => none
    | some (a, b) => some (c :: a, b)

/-- `split(/\r?\n/)`: the accumulator holds the current piece reversed. -/
def splitLinesAux : List Char → List Char → List (List Char)
  | [], acc => [acc.reverse]
  | '\r' :: '\n' :: rest, acc => acc.reverse :: splitLinesAux rest []
  | '\n' :: rest, acc => acc.reverse :: splitLinesAux rest []
  | c :: rest, acc => splitLinesAux rest (c :: acc)

/-- `input.replace(/﻿/g, "").split(/\r?\n/)` shared by both caption
parsers: strip every byte-order mark and split into lines. -/
def splitLines (s : List Char) : List (List Char) :=
  splitLinesAux (s.filter (fun c => c ≠ '\uFEFF')) []

/-- The inner text-collection loop of both parsers: the lines before the
first blank (trimmed-empty) line, and the remaining lines from that blank
line on. -/
def takeTextLines : List (List Char) → List (List Char) × List (List Char)
  | [] => ([], [])
  | l :: rest =>
    if trimL l = [] then ([], l :: rest)
    else
      let (t, r) := takeTextLines rest
      (l :: t, r)

/-- `textLines.join("\n")`. -/
def joinNL : List (List Char) → List Char
  | [] => []
  | [l] => l
  | l :: rest => l ++ '\n' :: joinNL rest

/-- The part of a timing line that `timeToMs` receives for the cue end:
everything after the first separator up to the next separator, because
`split("-->")` destructures into its first two pieces. -/
def secondPiece (b : List Char) : List Char :=
  match breakArrow b with
  | some (a2, _) => a2
  | none => b

/-- The scanning loop of `parseVtt` over the remaining lines.  The fuel
only bounds the iteration count: every step consumes at least one line, so
`length + 1` is always enough. -/
def parseVttAux : Nat → List (List Char) → List Cue
  | 0, _ => []
  | _ + 1, [] => []
  | fuel + 1, l :: rest =>
    let line := trimL l
    if line = [] then parseVttAux fuel rest
    else
      match breakArrow line with
      | some (a, b) =>
        let startRaw := trimL a
        let endRaw := (trimL (secondPiece b)).takeWhile (fun c => c ≠ ' ')
        let (textLines, rest2) := takeTextLines rest
        match timeToMs startRaw, timeToMs endRaw with
        | some s, some e =>
          ⟨(s : Int), (e : Int), ⟨joinNL textLines⟩, none⟩ :: parseVttAux fuel rest2
        | _, _ => parseVttAux fuel rest2
      | none => parseVttAux fuel rest

/-- `parseVtt` of the source: split into lines, skip a first line starting
with the `WEBVTT` header, and scan for timing lines. -/
def parseVtt (input : List Char) : List Cue :=
  let lines := splitLines input
  let lines2 :=
    match lines with
    | l :: rest => if startsWithL l "WEBVTT".data then rest else lines
    | [] => lines
  parseVttAux (lines2.length + 1) lines2

/-- The `/^\d+$/` test of `parseSrt`. -/
def isAllDigits (s : List Char) : Bool :=
  !s.isEmpty && s.all Char.isDigit

/-- `replace(",", ".")` with a string pattern: first occurrence only. -/
def replaceFirstComma : List Char → List Char
  | [] => []
  | ',' :: rest => '.' :: rest
  | c :: rest => c :: replaceFirstComma rest

/-- The scanning loop of `parseSrt`: an all-digit line is consumed as a
sequence number, the line at the resulting position must carry the arrow
separator or is skipped, and text lines follow until a blank line.  As in
`parseVttAux` the fuel only bounds the iteration count. -/
def parseSrtAux : Nat → List (List Char) → List Cue
  | 0, _ => []
  | _ + 1, [] => []
  | fuel + 1, l :: rest =>
    let line := trimL l
    if line = [] then parseSrtAux fuel rest
    else
      let cur := if isAllDigits line then rest else l :: rest
      let timeLine := trimL (cur.headD [])
      match breakArrow timeLine with
      | none => parseSrtAux fuel cur.tail
      | some (a, b) =>
        let startRaw := replaceFirstComma (trimL a)
        let endRaw := (replaceFirstComma (trimL (secondPiece b))).takeWhile (fun c => c ≠ ' ')
        let (textLines, rest2) := takeTextLines cur.tail
        match timeToMs startRaw, timeToMs endRaw with
        | some s, some e =>
          ⟨(s : Int), (e : Int), ⟨joinNL textLines⟩, none⟩ :: parseSrtAux fuel rest2
        | _, _ => parseSrtAux fuel rest2

/-- `parseSrt` of the source. -/
def parseSrt (input : List Char) : List Cue :=
  let lines := splitLines input
  parseSrtAux (lines.length + 1) lines


/-- `parseLyricsLines` of the source: split on line breaks, trim, drop
empty lines. -/
def parseLyricsLines (input : String) : List String :=
  (((splitLines input.data).map trimL).filter (fun l => l.length > 0)).map
    (fun l => String.mk l)

/-- JavaScript `Array.prototype.map((x, idx) => ...)` with the running
index, starting at `i`. -/
def mapIdxAux {α β : Type} (f : Nat → α → β) (i : Nat) : List α → List β
  | [] => []
  | c :: rest => f i c :: mapIdxAux f (i + 1) rest

/-- JavaScript `Array.prototype.map` with the element index. -/
def jsMapIdx {α β : Type} (f : Nat → α → β) (l : List α) : List β :=
  mapIdxAux f 0 l

/-- `mapLyricsToCues` of the source: exact pairing on equal counts,
proportional index mapping otherwise; the final branch groups lyric lines
onto cues, preserving line order, as the push loop of the source does. -/
def mapLyricsToCues (cues : List Cue) (lines : List String) : List Cue :=
  if cues.length = 0 then []
  else if lines.length = 0 then cues.map (fun c => c)
  else if cues.length = lines.length then
    jsMapIdx (fun idx c => { c with twText := some (lines.getD idx "") }) cues
  else if cues.length > lines.length then
    jsMapIdx (fun idx c =>
      let lineIndex := min (lines.length - 1) (idx * lines.length / cues.length)
      { c with twText := some (lines.getD lineIndex "") }) cues
  else
    let cueIndexOf := fun (idx : Nat) =>
      min (cues.length - 1) (idx * cues.length / lines.length)
    let grouped := (List.range cues.length).map (fun ci =>
      ((jsMapIdx (fun idx line => (idx, line)) lines).filter
        (fun p => cueIndexOf p.1 = ci)).map Prod.snd)
    jsMapIdx (fun idx c =>
      { c with twText := some (String.intercalate "\n" (grouped.getD idx [])) }) cues

/-- The pure parsing core of `parseAndMap`: format selection between the
two parsers; `none` models the paths that set a parse error. -/
def parseCaptions (vttText : List Char) : Option (List Cue) :=
  let trimmedVtt := trimL vttText
  if trimmedVtt = [] then none
  else
    let parsed :=
      if startsWithL trimmedVtt "WEBVTT".data then parseVtt trimmedVtt
      else if (breakArrow trimmedVtt).isSome then
        let p := parseVtt trimmedVtt
        if p.length = 0 then parseSrt trimmedVtt else p
      else []
    if parsed.length = 0 then none else some parsed

/-- `parseAndMap` of the source without its state writes: the parsed cues
with the lyric lines aligned onto them, or `none` on a parse error. -/
def parseAndMap (vttText lyricsText : String) : Option (List Cue) :=
  match parseCaptions vttText.data with
  | none => none
  | some parsed => some (mapLyricsToCues parsed (parseLyricsLines lyricsText))

/-- JavaScript `Array.prototype.findIndex`: the index of the first element
satisfying the predicate, `-1` when none does. -/
def findIndexJS (p : Cue → Bool) : List Cue → Int
  | [] => -1
  | c :: rest =>
    if p c then 0
    else
      let r := findIndexJS p rest
      if r = -1 then -1 else r + 1

/-- The `activeIndex` memo of the source: the first cue whose inclusive
window contains the effective time `currentMs + globalOffsetMs`. -/
def activeIndex (cues : List Cue) (currentMs globalOffsetMs : Int) : Int :=
  let t := currentMs + globalOffsetMs
  findIndexJS (fun c => decide (c.startMs ≤ t) && decide (t ≤ c.endMs)) cues

/-- `replace(/\n+/g, " ")`: collapse every run of newlines to one space.
The flag records whether the previous character was a newline. -/
def collapseNLAux : List Char → Bool → List Char
  | [], _ => []
  | c :: rest, prevNL =>
    if c = '\n' then
      if prevNL then collapseNLAux rest true
      else ' ' :: collapseNLAux rest true
    else c :: collapseNLAux rest false

/-- `text.replace(/\n+/g, " ")` of the LRC exporter. -/
def collapseNL (s : List Char) : List Char := collapseNLAux s false

/-- `toLrc` of the source: each cue becomes `[mm:ss.cc]text`, hundredths
from the millisecond remainder divided by ten; floor division and the
sign-of-dividend remainder mirror `Math.floor` and the `%` operator of the
source on its integer inputs. -/
def toLrc (cues : List Cue) : String :=
  let lines := cues.map (fun c =>
    let totalSeconds := (Int.fdiv c.startMs 1000).toNat
    let cs := Int.fdiv (Int.tmod c.startMs 1000) 10
    let m := totalSeconds / 60
    let s := totalSeconds % 60
    let tag := '[' :: padStartZeros 2 (natToString m) ++
      ':' :: padStartZeros 2 (natToString s) ++
      '.' :: padStartZeros 2 (intToString cs) ++ [']']
    let text := collapseNL (c.twText.getD c.text).data
    String.mk (tag ++ text))
  String.intercalate "\n" lines ++ "\n"

/-- The manual tap-timer state: the `manualCues`, `manualIndex` and
`manualActive` pieces of component state that the timer reads and
writes. -/
structure ManualState where
  manualCues : List Cue
  manualIndex : Nat
  manualActive : Bool
deriving Repr, DecidableEq

/-- `startManualSync` of the source: `none` models the rejection message
when no lyric line is present; otherwise one manual cue per line with both
bounds at the `-1` sentinel, index 0, timer active. -/
def startManualSync (lyricsInput : String) : Option ManualState :=
  let lines := parseLyricsLines lyricsInput
  if lines.length = 0 then none
  else some ⟨lines.map (fun line => ⟨-1, -1, line, some line⟩), 0, true⟩

/-- The `setManualCues` updater inside `tapManualSync`: first tap on a cue
records its start; a later tap records its end and chains the next cue's
start. -/
def tapUpdateCues (cues : List Cue) (idx : Nat) (t : Int) : List Cue :=
  match cues.get? idx with
  | none => cues
  | some current =>
    if idx = 0 ∧ current.startMs < 0 then
      cues.set idx { current with startMs := t }
    else if current.startMs < 0 then
      cues.set idx { current with startMs := t }
    else
      let next1 := if current.endMs < 0 then cues.set idx { current with endMs := t } else cues
      if idx < cues.length - 1 then
        match next1.get? (idx + 1) with
        | some nextCue =>
          if nextCue.startMs < 0 then next1.set (idx + 1) { nextCue with startMs := t }
          else next1
        | none => next1
      else next1

/-- `tapManualSync` of the source at a known player time `t`: inactive
timer or empty cue list leaves the state unchanged; at the last index the
timer deactivates; the very first tap does not advance the index; any
other tap advances it, clamped to the last index.  (When the player time
is unavailable the source leaves the state unchanged as well.) -/
def tapManualSync (st : ManualState) (t : Int) : ManualState :=
  if !st.manualActive || st.manualCues.length = 0 then st
  else
    let firstStart :=
      match st.manualCues.get? 0 with
      | some c => c.startMs
      | none => -1
    let isFirstTap := st.manualIndex = 0 ∧ firstStart < 0
    let cues2 := tapUpdateCues st.manualCues st.manualIndex t
    if st.manualCues.length - 1 ≤ st.manualIndex then
      { manualCues := cues2, manualIndex := st.manualIndex, manualActive := false }
    else if isFirstTap then
      { manualCues := cues2, manualIndex := st.manualIndex,
        manualActive := st.manualActive }
    else
      { manualCues := cues2,
        manualIndex := min (st.manualCues.length - 1) (st.manualIndex + 1),
        manualActive := st.manualActive }

/-- `applyManualCues` of the source: `none` models the rejection messages
(empty result, or some cue with an unset or non-increasing window), under
which the component state is left unchanged; `some` carries the cue list
that replaces the main cue sequence. -/
def applyManualCues (manualCues : List Cue) : Option (List Cue) :=
  if manualCues.length = 0 then none
  else if manualCues.any (fun c =>
      decide (c.startMs < 0) || decide (c.endMs < 0) || decide (c.endMs ≤ c.startMs)) then
    none
  else some (manualCues.map (fun c => c))


/-- The caption input of the SRT-fallback scenario. -/
def srtScenarioInput : String := "1\n00:00:01,000 --> 00:00:02,000\nhi\n"

lemma findIndexJS_neg_one_or_nonneg (p : Cue → Bool) (l : List Cue) :
    findIndexJS p l = -1 ∨ 0 ≤ findIndexJS p l := by
  induction l with
  | nil => left; rfl
  | cons c rest ih =>
    by_cases hc : p c = true
    · right; simp [findIndexJS, hc]
    · rcases ih with h | h <;>
        simp only [findIndexJS, hc, Bool.false_eq_true, if_false]
      · rw [if_pos h]; left; rfl
      · by_cases hr : findIndexJS p rest = -1
        · rw [if_pos hr]; left; rfl
        · rw [if_neg hr]; right; omega

lemma findIndexJS_ne_of_false (p : Cue → Bool) (l : List Cue) (i : Nat)
    (hi : i < l.length) (hp : p (l.get ⟨i, hi⟩) = false) :
    findIndexJS p l ≠ (i : Int) := by
  induction l generalizing i with
  | nil => simp at hi
  | cons c rest ih =>
    by_cases hc : p c = true
    · cases i with
      | zero => simp [List.get] at hp; rw [hp] at hc; exact absurd hc (by simp)
      | succ j => simp [findIndexJS, hc]; omega
    · simp only [findIndexJS, hc, Bool.false_eq_true, if_false]
      cases i with
      | zero =>
        rcases findIndexJS_neg_one_or_nonneg p rest with h | h
        · rw [if_pos h]; decide
        · by_cases hr : findIndexJS p rest = -1
          · rw [if_pos hr]; decide
          · rw [if_neg hr]; omega
      | succ j =>
        have hj : j < rest.length := by simpa using hi
        have hpj : p (rest.get ⟨j, hj⟩) = false := by simpa [List.get] using hp
        have := ih j hj hpj
        by_cases hr : findIndexJS p rest = -1
        · rw [if_pos hr]; omega
        · rw [if_neg hr]; omega


/-- C2 counterexample: on the input `"1\n00:00:01,000 --> 00:00:02,000\nhi\n"`
the VTT parser does not yield zero cues — the timecode regex accepts the
comma separator, so the VTT pass already yields the cue `{1000, 2000, "hi"}`
and the SRT fallback is never reached. -/
theorem c2_vtt_not_empty :
    parseVtt (trimL srtScenarioInput.data) = [⟨1000, 2000, "hi", none⟩] ∧
    (parseVtt (trimL srtScenarioInput.data)).length ≠ 0 := by decide

/-- C2 amended: for the input `"1\n00:00:01,000 --> 00:00:02,000\nhi\n"`
(no WEBVTT header, contains the arrow separator), the format-selection
policy tries the VTT parser first, which itself yields the single cue
`{startMs 1000, endMs 2000, text "hi"}` because the timecode regex accepts
comma separators, so the SRT fallback is not triggered; the overall parse
yields exactly that one cue via the VTT path. -/
theorem c2_parse_policy :
    parseCaptions srtScenarioInput.data = some [⟨1000, 2000, "hi", none⟩] ∧
    parseVtt (trimL srtScenarioInput.data) = [⟨1000, 2000, "hi", none⟩] := by decide

/-- C3: starting a manual timing session on the lyric lines `["a", "b"]`,
the first tap at 5000 sets cue 0's start and keeps index 0; the second tap
at 6000 sets cue 0's end and cue 1's start and advances to index 1; the
third tap at 8000 sets cue 1's end and deactivates the timer; applying
then yields the cue list `[{5000, 6000, "a"}, {6000, 8000, "b"}]`. -/
theorem c3_manual_session :
    startManualSync "a\nb"
      = some ⟨[⟨-1, -1, "a", some "a"⟩, ⟨-1, -1, "b", some "b"⟩], 0, true⟩ ∧
    tapManualSync ⟨[⟨-1, -1, "a", some "a"⟩, ⟨-1, -1, "b", some "b"⟩], 0, true⟩ 5000
      = ⟨[⟨5000, -1, "a", some "a"⟩, ⟨-1, -1, "b", some "b"⟩], 0, true⟩ ∧
    tapManualSync ⟨[⟨5000, -1, "a", some "a"⟩, ⟨-1, -1, "b", some "b"⟩], 0, true⟩ 6000
      = ⟨[⟨5000, 6000, "a", some "a"⟩, ⟨6000, -1, "b", some "b"⟩], 1, true⟩ ∧
    tapManualSync ⟨[⟨5000, 6000, "a", some "a"⟩, ⟨6000, -1, "b", some "b"⟩], 1, true⟩ 8000
      = ⟨[⟨5000, 6000, "a", some "a"⟩, ⟨6000, 8000, "b", some "b"⟩], 1, false⟩ ∧
    applyManualCues [⟨5000, 6000, "a", some "a"⟩, ⟨6000, 8000, "b", some "b"⟩]
      = some [⟨5000, 6000, "a", some "a"⟩, ⟨6000, 8000, "b", some "b"⟩] := by decide

/-- C5: parsing the WEBVTT caption text with cues `hello` (0–2000) and
`world` (2000–4000) and aligning with the lyric text `"a\nb"` yields the
two cues index-for-index with display texts `a` and `b`, and exporting
them to LRC yields exactly `"[00:00.00]a\n[00:02.00]b\n"`. -/
theorem c5_end_to_end :
    parseAndMap "WEBVTT\n\n00:00:00.000 --> 00:00:02.000\nhello\n\n00:00:02.000 --> 00:00:04.000\nworld" "a\nb"
      = some [⟨0, 2000, "hello", some "a"⟩, ⟨2000, 4000, "world", some "b"⟩] ∧
    toLrc [⟨0, 2000, "hello", some "a"⟩, ⟨2000, 4000, "world", some "b"⟩]
      = "[00:00.00]a\n[00:02.00]b\n" := by decide

/-- C6: on the cue list `[{0,1000},{1000,2000}]` the effective time 1000
lies in both inclusive windows, and the live selector resolves the tie to
the first match, index 0. -/
theorem c6_first_match_tie :
    ([⟨0, 1000, "", none⟩, ⟨1000, 2000, "", none⟩] : List Cue).all
      (fun c => decide (c.startMs ≤ 1000) && decide ((1000 : Int) ≤ c.endMs)) = true ∧
    activeIndex [⟨0, 1000, "", none⟩, ⟨1000, 2000, "", none⟩] 1000 0 = 0 := by decide

/-- C7: a cue whose end lies strictly before its start is never selected
by the live selector at any effective time, and on the empty cue list the
selector always reports no active cue (`-1`). -/
theorem c7_malformed_never_active :
    (∀ (cues : List Cue) (currentMs globalOffsetMs : Int) (i : Nat)
      (hi : i < cues.length),
      (cues.get ⟨i, hi⟩).endMs < (cues.get ⟨i, hi⟩).startMs →
      activeIndex cues currentMs globalOffsetMs ≠ (i : Int)) ∧
    ∀ (currentMs globalOffsetMs : Int), activeIndex [] currentMs globalOffsetMs = -1 := by
  constructor
  · intro cues currentMs globalOffsetMs i hi hlt
    unfold activeIndex
    apply findIndexJS_ne_of_false
    rw [Bool.eq_false_iff]
    intro hand
    rw [Bool.and_eq_true, decide_eq_true_iff, decide_eq_true_iff] at hand
    omega
  · intro currentMs globalOffsetMs; rfl

/-- C7 witness: the malformed cue `{5, 3}` is not selected at effective
time 4, and the empty list reports no active cue. -/
theorem c7_witness :
    activeIndex [⟨5, 3, "", none⟩] 4 0 ≠ 0 ∧ activeIndex [] 4 0 = -1 :=
  ⟨c7_malformed_never_active.1 [⟨5, 3, "", none⟩] 4 0 0 (by decide) (by decide),
   c7_malformed_never_active.2 4 0⟩

/-- C4 counterexample: on the empty manual cue list every cue vacuously
satisfies the validity condition, yet applying is rejected (the source
reports "no manual timing results" before validating), so "succeeds if and
only if every manual cue is valid" fails there. -/
theorem c4_empty_rejected :
    applyManualCues [] = none ∧
    ([] : List Cue).all (fun c =>
      decide (0 ≤ c.startMs) && decide (0 ≤ c.endMs) &&
      decide (c.startMs < c.endMs)) = true := by decide

/-- C4 amended: for a NONEMPTY manual cue list, applying succeeds —
replacing the main cue sequence wholesale with the manual cues — exactly
when every manual cue satisfies `startMs ≥ 0`, `endMs ≥ 0` and
`endMs > startMs`; otherwise it is rejected (`none`, the incomplete
signal, under which the source leaves both cue lists unchanged). -/
theorem c4_apply_iff_valid (mc : List Cue) (h : mc ≠ []) :
    ((∀ c ∈ mc, 0 ≤ c.startMs ∧ 0 ≤ c.endMs ∧ c.startMs < c.endMs) →
      applyManualCues mc = some mc) ∧
    ((¬ ∀ c ∈ mc, 0 ≤ c.startMs ∧ 0 ≤ c.endMs ∧ c.startMs < c.endMs) →
      applyManualCues mc = none) := by
  have hlen : ¬ mc.length = 0 := by simpa using h
  constructor
  · intro hall
    have hanyf : (mc.any (fun c =>
        decide (c.startMs < 0) || decide (c.endMs < 0) ||
        decide (c.endMs ≤ c.startMs))) = false := by
      rw [List.any_eq_false]
      intro c hc
      have := hall c hc
      intro htrue
      simp only [Bool.or_eq_true, decide_eq_true_iff] at htrue
      omega
    unfold applyManualCues
    rw [if_neg hlen, if_neg (by rw [hanyf]; exact Bool.false_ne_true)]
    simp
  · intro hnot
    have hanyt : (mc.any (fun c =>
        decide (c.startMs < 0) || decide (c.endMs < 0) ||
        decide (c.endMs ≤ c.startMs))) = true := by
      rcases not_forall.mp hnot with ⟨c, hc⟩
      rcases Classical.not_imp.mp hc with ⟨hmem, hval⟩
      rw [List.any_eq_true]
      refine ⟨c, hmem, ?_⟩
      simp only [Bool.or_eq_true, decide_eq_true_iff]
      omega
    unfold applyManualCues
    rw [if_neg hlen, if_pos hanyt]

/-- C4 witness: a nonempty all-valid manual cue list is promoted as-is, and
a nonempty list with an unset end time is rejected. -/
theorem c4_witness :
    applyManualCues [⟨0, 1, "x", none⟩] = some [⟨0, 1, "x", none⟩] ∧
    applyManualCues [⟨0, -1, "x", none⟩] = none :=
  ⟨(c4_apply_iff_valid [⟨0, 1, "x", none⟩] (by decide)).1 (by decide),
   (c4_apply_iff_valid [⟨0, -1, "x", none⟩] (by decide)).2 (by decide)⟩

/-- C9: when the lyric input splits to exactly one non-empty line, the
manual timer can never produce an applicable result: the session starts
with one sentinel cue; the very first tap records only that cue's start
and immediately deactivates the timer (the index is already the last one)
while its end stays at the `-1` sentinel; every further tap is ignored
because the timer is inactive; and applying always rejects. -/
theorem c9_single_line_never_applicable (s l : String)
    (hs : parseLyricsLines s = [l]) (t : Int) :
    startManualSync s = some ⟨[⟨-1, -1, l, some l⟩], 0, true⟩ ∧
    tapManualSync ⟨[⟨-1, -1, l, some l⟩], 0, true⟩ t
      = ⟨[⟨t, -1, l, some l⟩], 0, false⟩ ∧
    (∀ t' : Int, tapManualSync ⟨[⟨t, -1, l, some l⟩], 0, false⟩ t'
      = ⟨[⟨t, -1, l, some l⟩], 0, false⟩) ∧
    applyManualCues [⟨t, -1, l, some l⟩] = none := by
  refine ⟨?_, ?_, ?_, ?_⟩
  · unfold startManualSync
    rw [hs]
    rfl
  · unfold tapManualSync tapUpdateCues
    simp
  · intro t'
    unfold tapManualSync
    simp
  · unfold applyManualCues
    simp

/-- C9 witness: the single-line session on lyric input "a", tapped at 7. -/
theorem c9_witness :
    startManualSync "a" = some ⟨[⟨-1, -1, "a", some "a"⟩], 0, true⟩ ∧
    applyManualCues [⟨7, -1, "a", some "a"⟩] = none :=
  ⟨(c9_single_line_never_applicable "a" "a" (by decide) 7).1,
   (c9_single_line_never_applicable "a" "a" (by decide) 7).2.2.2⟩

lemma length_mapIdxAux {α β : Type} (f : Nat → α → β) (i : Nat) (l : List α) :
    (mapIdxAux f i l).length = l.length := by
  induction l generalizing i with
  | nil => rfl
  | cons c rest ih => simp [mapIdxAux, ih]

lemma get_mapIdxAux {α β : Type} (f : Nat → α → β) (l : List α) (i k : Nat)
    (hk : k < l.length) (hk2 : k < (mapIdxAux f i l).length) :
    (mapIdxAux f i l).get ⟨k, hk2⟩ = f (i + k) (l.get ⟨k, hk⟩) := by
  induction l generalizing i k with
  | nil => simp at hk
  | cons c rest ih =>
    cases k with
    | zero => rfl
    | succ j =>
      have hj : j < rest.length := by simpa using hk
      have hj2 : j < (mapIdxAux f (i + 1) rest).length := by
        rw [length_mapIdxAux]; exact hj
      have := ih (i + 1) j hj hj2
      simpa [mapIdxAux, Nat.add_assoc, Nat.add_comm 1 j] using this

lemma length_jsMapIdx {α β : Type} (f : Nat → α → β) (l : List α) :
    (jsMapIdx f l).length = l.length := length_mapIdxAux f 0 l

lemma get_jsMapIdx {α β : Type} (f : Nat → α → β) (l : List α) (k : Nat)
    (hk : k < l.length) (hk2 : k < (jsMapIdx f l).length) :
    (jsMapIdx f l).get ⟨k, hk2⟩ = f k (l.get ⟨k, hk⟩) := by
  have := get_mapIdxAux f l 0 k hk hk2
  simpa using this

/-- C10: for every cue list and lyric-line list, when the cue list is
nonempty the aligner's output has exactly the cue list's length, and every
output cue keeps the start, end and source text of the corresponding input
cue — alignment only attaches (or omits) the display text. -/
theorem c10_aligner_frame (cues : List Cue) (lines : List String) (h : cues ≠ []) :
    (mapLyricsToCues cues lines).length = cues.length ∧
    ∀ (i : Nat) (hi : i < cues.length) (hi2 : i < (mapLyricsToCues cues lines).length),
      ((mapLyricsToCues cues lines).get ⟨i, hi2⟩).startMs = (cues.get ⟨i, hi⟩).startMs ∧
      ((mapLyricsToCues cues lines).get ⟨i, hi2⟩).endMs = (cues.get ⟨i, hi⟩).endMs ∧
      ((mapLyricsToCues cues lines).get ⟨i, hi2⟩).text = (cues.get ⟨i, hi⟩).text := by
  have hlen : ¬ cues.length = 0 := by simpa using h
  unfold mapLyricsToCues
  rw [if_neg hlen]
  by_cases h0 : lines.length = 0
  · rw [if_pos h0]
    refine ⟨by simp, ?_⟩
    intro i hi hi2
    have : (cues.map fun c => c).get ⟨i, hi2⟩ = cues.get ⟨i, hi⟩ := by
      simp
    rw [this]
    exact ⟨rfl, rfl, rfl⟩
  · rw [if_neg h0]
    by_cases heq : cues.length = lines.length
    · rw [if_pos heq]
      refine ⟨length_jsMapIdx _ _, ?_⟩
      intro i hi hi2
      rw [get_jsMapIdx _ _ i hi hi2]
      exact ⟨rfl, rfl, rfl⟩
    · rw [if_neg heq]
      by_cases hgt : cues.length > lines.length
      · rw [if_pos hgt]
        refine ⟨length_jsMapIdx _ _, ?_⟩
        intro i hi hi2
        rw [get_jsMapIdx _ _ i hi hi2]
        exact ⟨rfl, rfl, rfl⟩
      · rw [if_neg hgt]
        refine ⟨length_jsMapIdx _ _, ?_⟩
        intro i hi hi2
        rw [get_jsMapIdx _ _ i hi hi2]
        exact ⟨rfl, rfl, rfl⟩

/-- C10 witness: a two-cue list aligned with one lyric line keeps length,
times and source texts. -/
theorem c10_witness :
    (mapLyricsToCues [⟨0, 1, "p", none⟩, ⟨1, 2, "q", none⟩] ["z"]).length = 2 ∧
    ((mapLyricsToCues [⟨0, 1, "p", none⟩, ⟨1, 2, "q", none⟩] ["z"]).get
      ⟨0, by decide⟩).text = "p" :=
  ⟨(c10_aligner_frame [⟨0, 1, "p", none⟩, ⟨1, 2, "q", none⟩] ["z"] (by decide)).1,
   ((c10_aligner_frame [⟨0, 1, "p", none⟩, ⟨1, 2, "q", none⟩] ["z"] (by decide)).2
      0 (by decide) (by decide)).2.2⟩

/-- C8: the fractional part is right-padded with zeros to three digits
before being read as milliseconds — `"00:00:01.5"` parses to 1500 (not
1005), a fraction `"12"` contributes 120 and `"1"` contributes 100; in
general padding multiplies the fraction's value by `10 ^ (3 - length)`;
and any input the timecode shape does not match yields `none` (the
function is total, so it never throws). -/
theorem c8_fraction_padding :
    timeToMsS "00:00:01.5" = some 1500 ∧
    timeToMsS "00:00:00.12" = some 120 ∧
    timeToMsS "00:00:00.1" = some 100 ∧
    (∀ fr : List Char, 1 ≤ fr.length → fr.length ≤ 3 →
      digitsToNat (padEnd3 fr) = digitsToNat fr * 10 ^ (3 - fr.length)) ∧
    (∀ raw : List Char, matchTimecode (trimL raw) = none → timeToMs raw = none) := by
  refine ⟨by decide, by decide, by decide, ?_, ?_⟩
  · intro fr h1 h3
    match fr with
    | [a] =>
      show digitsToNat [a, '0', '0'] = digitsToNat [a] * 10 ^ 2
      simp [digitsToNat]
      try omega
    | [a, b] =>
      show digitsToNat [a, b, '0'] = digitsToNat [a, b] * 10 ^ 1
      simp [digitsToNat]
      try omega
    | [a, b, c] =>
      show digitsToNat [a, b, c] = digitsToNat [a, b, c] * 10 ^ 0
      simp
  · intro raw hmatch
    unfold timeToMs
    rw [hmatch]

/-- C8 witness: the padding rule at the one-digit fraction `"5"`, and
`none` on the non-matching input `"abc"`. -/
theorem c8_witness :
    digitsToNat (padEnd3 ['5']) = digitsToNat ['5'] * 10 ^ 2 ∧
    timeToMs "abc".data = none :=
  ⟨c8_fraction_padding.2.2.2.1 ['5'] (by decide) (by decide),
   c8_fraction_padding.2.2.2.2 "abc".data (by decide)⟩

lemma charOfNat_toNat (a : Nat) (h : a < 10) :
    (Char.ofNat (48 + a)).toNat = 48 + a := by
  interval_cases a <;> decide

lemma charOfNat_isDigit (a : Nat) (h : a < 10) :
    (Char.ofNat (48 + a)).isDigit = true := by
  interval_cases a <;> decide

lemma charOfNat_not_ws (a : Nat) (h : a < 10) :
    (Char.ofNat (48 + a)).isWhitespace = false := by
  interval_cases a <;> decide

lemma natToString_lt10 (n : Nat) (h : n < 10) :
    natToString n = [Char.ofNat (48 + n)] := by
  unfold natToString
  simp [natToDigitsAux, h, Nat.mod_eq_of_lt h]

lemma natToString_two (n : Nat) (h1 : 10 ≤ n) (h2 : n < 100) :
    natToString n = [Char.ofNat (48 + n / 10), Char.ofNat (48 + n % 10)] := by
  obtain ⟨m, rfl⟩ : ∃ m, n = m + 1 := ⟨n - 1, by omega⟩
  have hA : ¬ (m + 1 < 10) := by omega
  have hB : (m + 1) / 10 < 10 := by omega
  have hC : (m + 1) / 10 % 10 = (m + 1) / 10 := Nat.mod_eq_of_lt hB
  unfold natToString
  simp [natToDigitsAux, hA, hB, hC]

lemma natToString_three (n : Nat) (h1 : 100 ≤ n) (h2 : n < 1000) :
    natToString n = [Char.ofNat (48 + n / 100), Char.ofNat (48 + n / 10 % 10),
      Char.ofNat (48 + n % 10)] := by
  obtain ⟨m, rfl⟩ : ∃ m, n = m + 1 := ⟨n - 1, by omega⟩
  obtain ⟨k, rfl⟩ : ∃ k, m = k + 1 := ⟨m - 1, by omega⟩
  have hA : ¬ (k + 1 + 1 < 10) := by omega
  have hB : ¬ ((k + 1 + 1) / 10 < 10) := by omega
  have hC : (k + 1 + 1) / 10 / 10 < 10 := by omega
  have hD : (k + 1 + 1) / 10 / 10 % 10 = (k + 1 + 1) / 100 := by omega
  have hE : (k + 1 + 1) / 10 / 10 = (k + 1 + 1) / 100 := by omega
  have hF : (k + 1 + 1) / 100 < 10 := by omega
  have hG : (k + 1 + 1) / 100 % 10 = (k + 1 + 1) / 100 := Nat.mod_eq_of_lt hF
  unfold natToString
  simp [natToDigitsAux, hA, hB, hC, hD, hE, hF, hG]

lemma padTwo_spec (n : Nat) (h : n < 100) :
    ∃ a b, a < 10 ∧ b < 10 ∧ a * 10 + b = n ∧
      padStartZeros 2 (natToString n) = [Char.ofNat (48 + a), Char.ofNat (48 + b)] := by
  rcases Nat.lt_or_ge n 10 with h10 | h10
  · refine ⟨0, n, by omega, h10, by omega, ?_⟩
    rw [natToString_lt10 n h10]
    have h0 : ('0' : Char) = Char.ofNat (48 + 0) := by decide
    simp [padStartZeros, List.replicate, h0]
  · refine ⟨n / 10, n % 10, by omega, by omega, by omega, ?_⟩
    rw [natToString_two n h10 h]
    simp [padStartZeros]

lemma padThree_spec (n : Nat) (h : n < 1000) :
    ∃ a b c, a < 10 ∧ b < 10 ∧ c < 10 ∧ (a * 10 + b) * 10 + c = n ∧
      padStartZeros 3 (natToString n) =
        [Char.ofNat (48 + a), Char.ofNat (48 + b), Char.ofNat (48 + c)] := by
  have h0 : ('0' : Char) = Char.ofNat (48 + 0) := by decide
  rcases Nat.lt_or_ge n 10 with h10 | h10
  · refine ⟨0, 0, n, by omega, by omega, h10, by omega, ?_⟩
    rw [natToString_lt10 n h10]
    simp [padStartZeros, List.replicate, h0]
  · rcases Nat.lt_or_ge n 100 with h100 | h100
    · refine ⟨0, n / 10, n % 10, by omega, by omega, by omega, by omega, ?_⟩
      rw [natToString_two n h10 h100]
      simp [padStartZeros, List.replicate, h0]
    · refine ⟨n / 100, n / 10 % 10, n % 10, by omega, by omega, by omega, by omega, ?_⟩
      rw [natToString_three n h100 h]
      simp [padStartZeros]

lemma splitDigits_all_digits (ds : List Char) (h : ∀ c ∈ ds, c.isDigit = true) :
    splitDigits ds = (ds, []) := by
  induction ds with
  | nil => rfl
  | cons c rest ih =>
    have hc := h c (by simp)
    have hr := ih (fun d hd => h d (by simp [hd]))
    simp [splitDigits, hc, hr]

lemma splitDigits_append (ds : List Char) (c : Char) (rest : List Char)
    (h : ∀ d ∈ ds, d.isDigit = true) (hc : c.isDigit = false) :
    splitDigits (ds ++ c :: rest) = (ds, c :: rest) := by
  induction ds with
  | nil => simp [splitDigits, hc]
  | cons d ds' ih =>
    have hd := h d (by simp)
    have hr := ih (fun e he => h e (by simp [he]))
    simp [splitDigits, hd, hr]

lemma dropWhile_non_ws (s : List Char) (h : ∀ c ∈ s, c.isWhitespace = false) :
    s.dropWhile Char.isWhitespace = s := by
  cases s with
  | nil => rfl
  | cons c rest => simp [List.dropWhile, h c (by simp)]

lemma trimL_non_ws (s : List Char) (h : ∀ c ∈ s, c.isWhitespace = false) :
    trimL s = s := by
  unfold trimL
  rw [dropWhile_non_ws s h,
    dropWhile_non_ws s.reverse (fun c hc => h c (List.mem_reverse.mp hc)),
    List.reverse_reverse]

lemma matchTimecode_build (hh mm ss fr : List Char)
    (dhh : ∀ c ∈ hh, c.isDigit = true) (lhh : hh.length = 2)
    (dmm : ∀ c ∈ mm, c.isDigit = true) (lmm : mm.length = 2)
    (dss : ∀ c ∈ ss, c.isDigit = true) (lss : ss.length = 2)
    (dfr : ∀ c ∈ fr, c.isDigit = true) (lfr : fr.length = 3) :
    matchTimecode (hh ++ ':' :: (mm ++ ':' :: (ss ++ '.' :: fr)))
      = some (hh, mm, ss, fr) := by
  simp [matchTimecode,
    splitDigits_append hh ':' (mm ++ ':' :: (ss ++ '.' :: fr)) dhh (by decide),
    splitDigits_append mm ':' (ss ++ '.' :: fr) dmm (by decide),
    splitDigits_append ss '.' fr dss (by decide),
    splitDigits_all_digits fr dfr, lhh, lmm, lss, lfr]

lemma digitsToNat_two (a b : Nat) (ha : a < 10) (hb : b < 10) :
    digitsToNat [Char.ofNat (48 + a), Char.ofNat (48 + b)] = a * 10 + b := by
  simp [digitsToNat, charOfNat_toNat a ha, charOfNat_toNat b hb]

lemma digitsToNat_three (a b c : Nat) (ha : a < 10) (hb : b < 10) (hc : c < 10) :
    digitsToNat [Char.ofNat (48 + a), Char.ofNat (48 + b), Char.ofNat (48 + c)]
      = (a * 10 + b) * 10 + c := by
  simp [digitsToNat, charOfNat_toNat a ha, charOfNat_toNat b hb, charOfNat_toNat c hc]

/-- C1 counterexample: at 100 hours (360000000 ms) the round trip fails —
the formatted hour field has three digits, which the timecode regex (1–2
hour digits) rejects, so parsing returns `none` instead of the input. -/
theorem c1_hours_not_parseable :
    timeToMs (formatMs (360000000 : Int)) = none ∧
    timeToMs (formatMs (360000000 : Int)) ≠ some 360000000 := by decide

/-- C1 amended: for every non-negative integer number of milliseconds
below 100 hours (360000000 ms), parsing the formatted timecode recovers
the input exactly: `timeToMs (formatMs x) = some x`. -/
theorem c1_roundtrip (x : Nat) (h : x < 360000000) :
    timeToMs (formatMs (x : Int)) = some x := by
  have hms : x % 1000 < 1000 := by omega
  have hh100 : x / 1000 / 3600 < 100 := by omega
  obtain ⟨a1, a2, ha1, ha2, hav, hhpad⟩ := padTwo_spec (x / 1000 / 3600) hh100
  obtain ⟨b1, b2, hb1, hb2, hbv, hmpad⟩ := padTwo_spec (x / 1000 / 60 % 60) (by omega)
  obtain ⟨e1, e2, he1, he2, hev, hspad⟩ := padTwo_spec (x / 1000 % 60) (by omega)
  obtain ⟨d1, d2, d3, hd1, hd2, hd3, hdv, hmspad⟩ := padThree_spec (x % 1000) hms
  have hfmt : formatMs (x : Int) =
      padStartZeros 2 (natToString (x / 1000 / 3600)) ++ ':' ::
      (padStartZeros 2 (natToString (x / 1000 / 60 % 60)) ++ ':' ::
      (padStartZeros 2 (natToString (x / 1000 % 60)) ++ '.' ::
      padStartZeros 3 (natToString (x % 1000)))) := by
    unfold formatMs
    simp [Int.toNat_natCast]
  rw [hfmt, hhpad, hmpad, hspad, hmspad]
  have hws : ∀ c ∈ ([Char.ofNat (48 + a1), Char.ofNat (48 + a2)] ++ ':' ::
      ([Char.ofNat (48 + b1), Char.ofNat (48 + b2)] ++ ':' ::
      ([Char.ofNat (48 + e1), Char.ofNat (48 + e2)] ++ '.' ::
      [Char.ofNat (48 + d1), Char.ofNat (48 + d2), Char.ofNat (48 + d3)]))),
      c.isWhitespace = false := by
    intro c hc
    simp only [List.cons_append, List.nil_append, List.mem_cons,
      List.not_mem_nil, or_false] at hc
    rcases hc with rfl | rfl | rfl | rfl | rfl | rfl | rfl | rfl | rfl | rfl | rfl | rfl
    exacts [charOfNat_not_ws a1 ha1, charOfNat_not_ws a2 ha2, by decide,
      charOfNat_not_ws b1 hb1, charOfNat_not_ws b2 hb2, by decide,
      charOfNat_not_ws e1 he1, charOfNat_not_ws e2 he2, by decide,
      charOfNat_not_ws d1 hd1, charOfNat_not_ws d2 hd2, charOfNat_not_ws d3 hd3]
  unfold timeToMs
  rw [trimL_non_ws _ hws,
    matchTimecode_build [Char.ofNat (48 + a1), Char.ofNat (48 + a2)]
      [Char.ofNat (48 + b1), Char.ofNat (48 + b2)]
      [Char.ofNat (48 + e1), Char.ofNat (48 + e2)]
      [Char.ofNat (48 + d1), Char.ofNat (48 + d2), Char.ofNat (48 + d3)]
      (by intro c hc; simp only [List.mem_cons, List.not_mem_nil, or_false] at hc
          rcases hc with rfl | rfl
          exacts [charOfNat_isDigit a1 ha1, charOfNat_isDigit a2 ha2])
      rfl
      (by intro c hc; simp only [List.mem_cons, List.not_mem_nil, or_false] at hc
          rcases hc with rfl | rfl
          exacts [charOfNat_isDigit b1 hb1, charOfNat_isDigit b2 hb2])
      rfl
      (by intro c hc; simp only [List.mem_cons, List.not_mem_nil, or_false] at hc
          rcases hc with rfl | rfl
          exacts [charOfNat_isDigit e1 he1, charOfNat_isDigit e2 he2])
      rfl
      (by intro c hc; simp only [List.mem_cons, List.not_mem_nil, or_false] at hc
          rcases hc with rfl | rfl | rfl
          exacts [charOfNat_isDigit d1 hd1, charOfNat_isDigit d2 hd2,
            charOfNat_isDigit d3 hd3])
      rfl]
  simp only [padEnd3, List.length_cons, List.length_nil, Nat.sub_self,
    List.replicate, List.append_nil,
    digitsToNat_two a1 a2 ha1 ha2, digitsToNat_two b1 b2 hb1 hb2,
    digitsToNat_two e1 e2 he1 he2, digitsToNat_three d1 d2 d3 hd1 hd2 hd3,
    Option.some.injEq]
  omega

/-- C1 witness: the round trip at 3723456 ms (`"01:02:03.456"`). -/
theorem c1_witness : timeToMs (formatMs ((3723456 : Nat) : Int)) = some 3723456 :=
  c1_roundtrip 3723456 (by decide)

end ForBelle
